import Mathlib

/-!
# Verification of the go-automapper type-conversion registry

Shallow embedding of the `mapper` Go package (mapper.go, mapper_automap.go).
Go's runtime types (`reflect.Type`) are modelled by the inductive `Ty`;
runtime values carried through `reflect.Value` / `interface{}` are modelled
by `Val`, which carries its dynamic type tag exactly as a Go interface value
does.  Machine behaviour that Go's static type system rules out (for example
dereferencing a non-pointer reflect value) and run-time panics (failed type
assertions, `reflect.Value.Call` argument mismatch, `reflect.Value.Set`
assignability failure) are both modelled by `Option`: `none` means the Go
code would panic or the situation is unrepresentable in Go.

The model covers concrete (non-interface) Go types.  The Go fast-path
branch for functions of type `func(interface{}) interface{}` inside
`fastSliceMapping` is therefore unrepresentable here and is modelled as
never matching; for non-empty slices that branch falls back to reflection
in the source as well.
-/

set_option autoImplicit false

namespace GoMapper

/-- Model of `reflect.Type` restricted to the shapes the library inspects:
named base types, pointer types, slice types. -/
inductive Ty where
  | base : String → Ty
  | ptr : Ty → Ty
  | slice : Ty → Ty
  deriving DecidableEq, Repr

/-- Kind test `t.Kind() == reflect.Ptr`. -/
def Ty.isPtr : Ty → Bool
  | .ptr _ => true
  | _ => false

/-- Kind test `t.Kind() == reflect.Slice`. -/
def Ty.isSlice : Ty → Bool
  | .slice _ => true
  | _ => false

/-- `t.Elem()` for pointer types, identity otherwise.  The Go code only
calls `Elem()` after checking the pointer kind, so the fallback is
unreachable there. -/
def Ty.stripPtr : Ty → Ty
  | .ptr t => t
  | t => t

/-- `t.Elem()` for slice types, identity otherwise (only called after the
slice-kind check in the source). -/
def Ty.elemTy : Ty → Ty
  | .slice t => t
  | t => t

/-- `reflect.Type.String()`: base type names print as themselves, pointer
types prefix a star, slice types prefix square brackets. -/
def Ty.str : Ty → String
  | .base s => s
  | .ptr t => "*" ++ t.str
  | .slice t => "[]" ++ t.str

/-- Model of a Go runtime value as seen through `interface{}` /
`reflect.Value`: every value carries its dynamic type tag.  A pointer is
`nil` or references a pointee value (the library only ever reads or
allocates pointees, so identity of locations is irrelevant for scalar and
slice conversion); a slice carries its element type and its elements. -/
inductive Val where
  | base : String → Nat → Val
  | ptr : Ty → Option Val → Val
  | slice : Ty → List Val → Val

/-- Dynamic type of a value, `reflect.TypeOf`. -/
def dynTy : Val → Ty
  | .base s _ => .base s
  | .ptr t _ => .ptr t
  | .slice t _ => .slice t

/-- `reflect.Zero(t)` / the zero value `var x T`: zero payload for base
types, nil for pointers, nil (empty) slice for slice types. -/
def zeroVal : Ty → Val
  | .base s => .base s 0
  | .ptr t => .ptr t none
  | .slice t => .slice t []

/-- `unsafeIsNil` applied to a pointer-typed value: true iff the pointer
is nil.  (The Go helper reads the first word of the value; for a pointer
type that word is the pointer itself.) -/
def isNilPtr : Val → Bool
  | .ptr _ none => true
  | _ => false

/-- Structural well-formedness of a value, guaranteed by Go's type system:
a pointer of type `*T` points (if non-nil) at a value of dynamic type `T`,
and a slice of type `[]T` holds elements of dynamic type `T`. -/
def WFVal : Val → Prop
  | .base _ _ => True
  | .ptr _ none => True
  | .ptr t (some u) => dynTy u = t ∧ WFVal u
  | .slice t l => ∀ u ∈ l, dynTy u = t ∧ WFVal u

/-- The two error values of the package: `ErrNoMapping` and
`ErrSrcAndDestMustBeSlices`. -/
inductive Err where
  | noMapping : Err
  | srcAndDestMustBeSlices : Err
  deriving DecidableEq, Repr

/-- `typePair`: the registry key. -/
abbrev TypePair := Ty × Ty

/-- A registry entry: the stored function value.  In Go the entry is an
`interface{}` holding a `func(In) Out`; `inTy`/`outTy` record the dynamic
function type (the declared parameter and return types) and `fn` its
behaviour on well-typed arguments. -/
structure Entry where
  inTy : Ty
  outTy : Ty
  fn : Val → Val

/-- `Mapper`: the registry, a Go map from `typePair` to the stored
function, modelled as an association list holding each key at most once
(insertion removes any previous binding). -/
structure Mapper where
  registry : List (TypePair × Entry)

/-- Go map read `m.registry[key]`. -/
def findEntry : List (TypePair × Entry) → TypePair → Option Entry
  | [], _ => none
  | (k, e) :: rest, key => if k = key then some e else findEntry rest key

/-- Go map delete `delete(m.registry, key)`. -/
def removeKey (key : TypePair) : List (TypePair × Entry) → List (TypePair × Entry)
  | [] => []
  | (k, e) :: rest => if k = key then removeKey key rest else (k, e) :: removeKey key rest

/-- Go map write `m.registry[key] = fn` (overwrite semantics). -/
def mapInsert (key : TypePair) (e : Entry) (reg : List (TypePair × Entry)) :
    List (TypePair × Entry) :=
  (key, e) :: removeKey key reg

/-- `New()`: empty registry. -/
def New : Mapper := { registry := [] }

/-- `Register[S, D](m, fn)`.  The key components are
`reflect.TypeOf((*S)(nil)).Elem()` and `reflect.TypeOf((*D)(nil)).Elem()`,
i.e. exactly the type parameters S and D as supplied — no pointer layer is
stripped.  The stored entry is the function itself, whose dynamic type is
`func(S) D`. -/
def Register (S D : Ty) (f : Val → Val) (m : Mapper) : Mapper :=
  { registry := mapInsert (S, D) ⟨S, D, f⟩ m.registry }

/-- `RegisterAutoMap[S, D](m)`: registers the external structural-copy
capability in both directions under the exact keys (S, D) and (D, S).
The copier itself is an external collaborator (jinzhu/copier), treated as
an opaque function parameter here, matching the spec's "opaque capability"
treatment. -/
def RegisterAutoMap (S D : Ty) (autoSD autoDS : Val → Val) (m : Mapper) : Mapper :=
  { registry :=
      mapInsert (D, S) ⟨D, S, autoDS⟩ (mapInsert (S, D) ⟨S, D, autoSD⟩ m.registry) }

/-- `Has[S, D](m)`: lookup under the exact key (S, D), no pointer
stripping. -/
def Has (S D : Ty) (m : Mapper) : Bool :=
  (findEntry m.registry (S, D)).isSome

/-- `Remove[S, D](m)`: delete under the exact key (S, D), no pointer
stripping. -/
def Remove (S D : Ty) (m : Mapper) : Mapper :=
  { registry := removeKey (S, D) m.registry }

/-- One label of `List`: `k.src.String() + "-" + k.dst.String()`. -/
def pairLabel (k : TypePair) : String :=
  k.1.str ++ "-" ++ k.2.str

/-- The strings produced by `List(m)`: one per registry entry. -/
def listStrings (m : Mapper) : List String :=
  m.registry.map (fun p => pairLabel p.1)

/-- `fastFunctionCall[S, D](fn, src)`: the type switch on the stored
function's dynamic type against `func(S) D`, `func(*S) D`, `func(S) *D`.
At most one case can match since the three function types are distinct.
Result `some (v, true)` means the case returned `(v, true)`;
`some (zero, false)` means no case matched; `none` models the
unrepresentable situation of `*result` on a non-pointer-shaped value in
the third case (impossible in Go, where `result` has static type `*D`). -/
def fastFunctionCall (S D : Ty) (e : Entry) (src : Val) : Option (Val × Bool) :=
  if e.inTy = S ∧ e.outTy = D then
    some (e.fn src, true)
  else if e.inTy = Ty.ptr S ∧ e.outTy = D then
    some (e.fn (Val.ptr S (some src)), true)
  else if e.inTy = S ∧ e.outTy = Ty.ptr D then
    match e.fn src with
    | Val.ptr _ (some u) => some (u, true)
    | Val.ptr _ none => some (zeroVal D, true)
    | _ => none
  else
    some (zeroVal D, false)

/-- `handlePointerConversion[S, D](result, needsPointer)`: when a pointer
is needed it allocates `reflect.New(result.Type())`, stores the result and
asserts the `*T` pointer to `D`; the assertion panics (`none`) unless
`*T = D` where `T` is the result's dynamic type. -/
def handlePointerConversion (D : Ty) (result : Val) (needsPointer : Bool) :
    Option (Val × Option Err) :=
  if needsPointer then
    if Ty.ptr (dynTy result) = D then
      some (Val.ptr (dynTy result) (some result), none)
    else
      none
  else
    some (result, none)

/-- `mapWithReflection[S, D](fn, src, srcType, dstType, srcIsPtr, dstIsPtr)`.
`reflect.Value.Call` panics (`none`) if the prepared parameter's dynamic
type differs from the function's declared input type; the result's dynamic
type is the function's declared output type (Go's typing of `fn`), and the
final interface assertions to `D` panic on mismatch. -/
def mapWithReflection (D : Ty) (e : Entry) (src : Val) (srcIsPtr dstIsPtr : Bool) :
    Option (Val × Option Err) :=
  let dst := zeroVal D
  if srcIsPtr then
    match src with
    | Val.ptr _ none => some (dst, none)
    | Val.ptr _ (some u) =>
      if dynTy u = e.inTy then
        let result := e.fn u
        if dstIsPtr then
          if Ty.ptr (dynTy result) = D then
            some (Val.ptr (dynTy result) (some result), none)
          else none
        else
          if dynTy result = D then some (result, none) else none
      else none
    | _ => none
  else
    if dynTy src = e.inTy then
      let result := e.fn src
      if dstIsPtr then
        if Ty.ptr (dynTy result) = D then
          some (Val.ptr (dynTy result) (some result), none)
        else none
      else
        if dynTy result = D then some (result, none) else none
    else none

/-- `Map[S, D](m, src)`.  `srcType` is `reflect.TypeOf(src)` (the dynamic
type, equal to S for Go's non-interface type parameters) and `dstType` is
`reflect.TypeOf(dst)` for the zero `dst`, i.e. D.  The registry key strips
one pointer layer from each side.  Returns `none` where the Go code would
panic (no such execution is reachable from well-typed Go callers, see the
totality theorem). -/
def Map (D : Ty) (m : Mapper) (src : Val) : Option (Val × Option Err) :=
  let dst := zeroVal D
  let srcType := dynTy src
  let dstType := dynTy dst
  let srcIsPtr := srcType.isPtr
  let dstIsPtr := dstType.isPtr
  let keySrcType := if srcIsPtr then srcType.stripPtr else srcType
  let keyDstType := if dstIsPtr then dstType.stripPtr else dstType
  match findEntry m.registry (keySrcType, keyDstType) with
  | none => some (dst, some Err.noMapping)
  | some e =>
    if srcIsPtr ∧ isNilPtr src then
      some (dst, none)
    else
      match fastFunctionCall srcType dstType e src with
      | none => none
      | some (result, true) => handlePointerConversion dstType result dstIsPtr
      | some (_, false) => mapWithReflection dstType e src srcIsPtr dstIsPtr

/-- Elements of a slice-shaped value (shape is guaranteed by the slice-kind
check preceding every use in the source). -/
def sliceElems : Val → List Val
  | .slice _ l => l
  | _ => []

/-- `fastSliceMapping[S, D](fn, src, srcElemIsPtr, dstElemIsPtr)`.
The `func(interface.) interface.` branch is unrepresentable here (no
interface types in `Ty`); the remaining type switch tries the stored
function against `func(string) int` and `func(int) string`, and inside a
matching case asserts the source to the corresponding concrete slice type
and the freshly built result to D, falling through (`none` = not
successful) when any assertion fails. -/
def fastSliceMapping (srcType dstType : Ty) (e : Entry) (src : Val) : Option Val :=
  if e.inTy = Ty.base "string" ∧ e.outTy = Ty.base "int" then
    if srcType = Ty.slice (Ty.base "string") then
      let d := Val.slice (Ty.base "int") ((sliceElems src).map e.fn)
      if dstType = Ty.slice (Ty.base "int") then some d else none
    else none
  else if e.inTy = Ty.base "int" ∧ e.outTy = Ty.base "string" then
    if srcType = Ty.slice (Ty.base "int") then
      let d := Val.slice (Ty.base "string") ((sliceElems src).map e.fn)
      if dstType = Ty.slice (Ty.base "string") then some d else none
    else none
  else none

/-- `mapSliceElement(fnValue, fnType, srcElem, srcElemIsPtr, dstElemIsPtr,
dstElemType)`.  `none` models a `reflect.Value.Call` argument-type panic,
or the unrepresentable shapes Go's typing rules out (`Elem()` of a
non-pointer value, `IsNil` of a non-pointer result). -/
def mapSliceElement (e : Entry) (srcElem : Val) (srcElemIsPtr dstElemIsPtr : Bool)
    (dstElemType : Ty) : Option Val :=
  if srcElemIsPtr ∧ isNilPtr srcElem then
    some (zeroVal dstElemType)
  else
    let callArg? : Option Val :=
      if e.inTy.isPtr ∧ ¬srcElemIsPtr then
        some (Val.ptr (dynTy srcElem) (some srcElem))
      else if ¬e.inTy.isPtr ∧ srcElemIsPtr then
        match srcElem with
        | Val.ptr _ (some u) => some u
        | _ => none
      else
        some srcElem
    match callArg? with
    | none => none
    | some callArg =>
      if dynTy callArg = e.inTy then
        let result := e.fn callArg
        if dstElemIsPtr ∧ ¬e.outTy.isPtr then
          some (Val.ptr (dynTy result) (some result))
        else if ¬dstElemIsPtr ∧ e.outTy.isPtr then
          match result with
          | Val.ptr _ none => some (zeroVal dstElemType)
          | Val.ptr _ (some u) => some u
          | _ => none
        else
          some result
      else none

/-- `dstSlice.Index(i).Set(mappedElem)`: `reflect.Value.Set` panics
(`none`) unless the element's dynamic type matches the destination
element type. -/
def setElem (dstElemType : Ty) (v : Val) : Option Val :=
  if dynTy v = dstElemType then some v else none

/-- The per-index loop of `mapSliceWithReflection`: map each element and
store it, propagating a panic from any index. -/
def mapElems (g : Val → Option Val) : List Val → Option (List Val)
  | [] => some []
  | x :: xs =>
    match g x with
    | none => none
    | some y =>
      match mapElems g xs with
      | none => none
      | some ys => some (y :: ys)

/-- One index of the `mapSliceWithReflection` loop: map the element, then
`dstSlice.Index(i).Set(mappedElem)`. -/
def mapAndSet (e : Entry) (srcElemIsPtr dstElemIsPtr : Bool) (dstElemType : Ty)
    (x : Val) : Option Val :=
  match mapSliceElement e x srcElemIsPtr dstElemIsPtr dstElemType with
  | none => none
  | some y => setElem dstElemType y

/-- `mapSliceWithReflection[S, D](fn, src, srcType, dstType, srcElemType,
dstElemType)`: allocates a destination slice of the source's length and
fills every index via `mapSliceElement` + `Set`. -/
def mapSliceWithReflection (dstType srcElemType dstElemType : Ty) (e : Entry)
    (src : Val) : Option (Val × Option Err) :=
  match mapElems (mapAndSet e srcElemType.isPtr dstElemType.isPtr dstElemType)
      (sliceElems src) with
  | none => none
  | some l => some (Val.slice (dstType.elemTy) l, none)

/-- `MapSlice[S, D](m, src)`: slice-kind validation first, then the
element-type key lookup (one pointer layer stripped on each side), then
the fast path with reflection fallback. -/
def MapSlice (D : Ty) (m : Mapper) (src : Val) : Option (Val × Option Err) :=
  let dst := zeroVal D
  let srcType := dynTy src
  let dstType := dynTy dst
  if ¬(srcType.isSlice ∧ dstType.isSlice) then
    some (dst, some Err.srcAndDestMustBeSlices)
  else
    let srcElemType := srcType.elemTy
    let dstElemType := dstType.elemTy
    let srcElemIsPtr := srcElemType.isPtr
    let dstElemIsPtr := dstElemType.isPtr
    let keySrcType := if srcElemIsPtr then srcElemType.stripPtr else srcElemType
    let keyDstType := if dstElemIsPtr then dstElemType.stripPtr else dstElemType
    match findEntry m.registry (keySrcType, keyDstType) with
    | none => some (dst, some Err.noMapping)
    | some e =>
      match fastSliceMapping srcType dstType e src with
      | some result => some (result, none)
      | none => mapSliceWithReflection dstType srcElemType dstElemType e src

/-! ## Allocation model for `List`

`List(m)` builds a fresh `[]string` on every call (`make` + `append`).
To express the independence of the returned slices we model string-slice
allocation explicitly: an allocation state maps references (allocation
order numbers) to backing arrays; `listAlloc` performs one `List` call,
allocating a fresh array; `writeArr` mutates one cell of one returned
array, exactly what a caller mutating the returned Go slice does.  The
registry is not part of this state: no `[]string` cell aliases it. -/

structure AllocState where
  next : Nat
  mem : Nat → List String

/-- One call of `List(m)`: allocate a fresh array holding the labels,
return the updated state and the new array's reference. -/
def listAlloc (m : Mapper) (st : AllocState) : AllocState × Nat :=
  ({ next := st.next + 1,
     mem := fun r => if r = st.next then listStrings m else st.mem r },
   st.next)

/-- Caller-side mutation of cell `i` of the array referenced by `r`. -/
def writeArr (st : AllocState) (r i : Nat) (s : String) : AllocState :=
  { st with mem := fun q => if q = r then (st.mem r).set i s else st.mem q }

/-! ## Registry well-formedness

Everything ever stored in a registry comes from `Register` or
`RegisterAutoMap`, which both store an entry whose declared function type
equals the key, and Go's static typing guarantees the stored function
returns its declared output type. -/

/-- The entry under key `k` is the function the key promises: its declared
types are the key components and it returns its declared output type. -/
def WFEntry (k : TypePair) (e : Entry) : Prop :=
  k.1 = e.inTy ∧ k.2 = e.outTy ∧ ∀ v, dynTy v = e.inTy → dynTy (e.fn v) = e.outTy

/-- All entries of the registry are well-formed. -/
def WFRegistry (m : Mapper) : Prop :=
  ∀ p ∈ m.registry, WFEntry p.1 p.2

/-! ## Registration/removal operation sequences

Used to express invariants over "any sequence of register/remove
operations" on a registry. -/

/-- One registry mutation: a `Register` call, a `RegisterAutoMap` call or
a `Remove` call, with the type parameters the caller supplied. -/
inductive RegOp where
  | reg : Ty → Ty → (Val → Val) → RegOp
  | regAuto : Ty → Ty → (Val → Val) → (Val → Val) → RegOp
  | rem : Ty → Ty → RegOp

/-- Apply one mutation. -/
def applyOp : RegOp → Mapper → Mapper
  | .reg S D f, m => Register S D f m
  | .regAuto S D f g, m => RegisterAutoMap S D f g m
  | .rem S D, m => Remove S D m

/-- Apply a sequence of mutations left to right. -/
def applyOps : List RegOp → Mapper → Mapper
  | [], m => m
  | op :: ops, m => applyOps ops (applyOp op m)

/-- The type parameters supplied to a registration are non-pointer types
(removals are unconstrained). -/
def opTypesNonPtr : RegOp → Prop
  | .reg S D _ => S.isPtr = false ∧ D.isPtr = false
  | .regAuto S D _ _ => S.isPtr = false ∧ D.isPtr = false
  | .rem _ _ => True

/-- No key of the registry has a pointer-typed component. -/
def keysNonPtr (m : Mapper) : Prop :=
  ∀ p ∈ m.registry, p.1.1.isPtr = false ∧ p.1.2.isPtr = false

/-- The element-level behaviour claimed for `MapSlice` over a slice of
pointer elements: nil elements map to the destination element type's zero
value (nil when the destination elements are pointers) without invoking
the function, non-nil elements invoke the function on the pointee and wrap
the result if the destination elements are pointers. -/
def sliceElemSpec (dE : Ty) (f : Val → Val) : Val → Val :=
  fun x =>
    match x with
    | Val.ptr _ none => zeroVal dE
    | Val.ptr _ (some u) => if dE.isPtr then Val.ptr dE.stripPtr (some (f u)) else f u
    | _ => zeroVal dE

/-! ## Basic lemmas -/

/-- Pointer depth of a type, used to refute cyclic type equations. -/
def Ty.depth : Ty → Nat
  | .base _ => 0
  | .ptr t => t.depth + 1
  | .slice t => t.depth + 1

theorem Ty.ne_ptr_self (t : Ty) : t ≠ Ty.ptr t := by
  intro h
  have := congrArg Ty.depth h
  simp [Ty.depth] at this

theorem Ty.ne_ptr_ptr_self (t : Ty) : t ≠ Ty.ptr (Ty.ptr t) := by
  intro h
  have := congrArg Ty.depth h
  simp [Ty.depth] at this
  omega

theorem findEntry_mem {reg : List (TypePair × Entry)} {k : TypePair} {e : Entry}
    (h : findEntry reg k = some e) : (k, e) ∈ reg := by
  induction reg with
  | nil => simp [findEntry] at h
  | cons p rest ih =>
    obtain ⟨k', e'⟩ := p
    by_cases hk : k' = k
    · subst hk
      simp [findEntry] at h
      subst h
      exact List.mem_cons_self _ _
    · simp [findEntry, hk] at h
      exact List.mem_cons_of_mem _ (ih h)

theorem findEntry_mapInsert_self (reg : List (TypePair × Entry)) (k : TypePair)
    (e : Entry) : findEntry (mapInsert k e reg) k = some e := by
  simp [mapInsert, findEntry]

theorem findEntry_mapInsert_ne (reg : List (TypePair × Entry)) (k k' : TypePair)
    (e : Entry) (h : k ≠ k') : findEntry (mapInsert k e reg) k' = findEntry (removeKey k reg) k' := by
  simp [mapInsert, findEntry, h]

theorem findEntry_removeKey_ne (reg : List (TypePair × Entry)) (k k' : TypePair)
    (h : k ≠ k') : findEntry (removeKey k reg) k' = findEntry reg k' := by
  induction reg with
  | nil => simp [removeKey]
  | cons p rest ih =>
    obtain ⟨k'', e''⟩ := p
    by_cases hk : k'' = k
    · subst hk
      simp [removeKey, findEntry, h, ih]
    · by_cases hk' : k'' = k'
      · subst hk'
        simp [removeKey, findEntry, hk]
      · simp [removeKey, findEntry, hk, hk', ih]

theorem removeKey_idem (reg : List (TypePair × Entry)) (k : TypePair) :
    removeKey k (removeKey k reg) = removeKey k reg := by
  induction reg with
  | nil => simp [removeKey]
  | cons p rest ih =>
    obtain ⟨k', e'⟩ := p
    by_cases hk : k' = k
    · simp [removeKey, hk, ih]
    · simp [removeKey, hk, ih]

theorem dynTy_zeroVal (t : Ty) : dynTy (zeroVal t) = t := by
  cases t <;> rfl

@[simp] theorem dynTy_base (s : String) (n : Nat) : dynTy (Val.base s n) = Ty.base s := rfl

@[simp] theorem dynTy_ptr (t : Ty) (o : Option Val) : dynTy (Val.ptr t o) = Ty.ptr t := rfl

@[simp] theorem dynTy_slice (t : Ty) (l : List Val) : dynTy (Val.slice t l) = Ty.slice t := rfl

@[simp] theorem isPtr_ptr (t : Ty) : (Ty.ptr t).isPtr = true := rfl

@[simp] theorem isPtr_base (s : String) : (Ty.base s).isPtr = false := rfl

@[simp] theorem isPtr_slice (t : Ty) : (Ty.slice t).isPtr = false := rfl

@[simp] theorem stripPtr_ptr (t : Ty) : (Ty.ptr t).stripPtr = t := rfl

@[simp] theorem isNilPtr_ptr_none (t : Ty) : isNilPtr (Val.ptr t none) = true := rfl

@[simp] theorem isNilPtr_ptr_some (t : Ty) (u : Val) : isNilPtr (Val.ptr t (some u)) = false := rfl

@[simp] theorem isNilPtr_base (s : String) (n : Nat) : isNilPtr (Val.base s n) = false := rfl

@[simp] theorem isNilPtr_slice (t : Ty) (l : List Val) : isNilPtr (Val.slice t l) = false := rfl

@[simp] theorem isSlice_slice (t : Ty) : (Ty.slice t).isSlice = true := rfl

@[simp] theorem isSlice_base (s : String) : (Ty.base s).isSlice = false := rfl

@[simp] theorem isSlice_ptr (t : Ty) : (Ty.ptr t).isSlice = false := rfl

@[simp] theorem elemTy_slice (t : Ty) : (Ty.slice t).elemTy = t := rfl

@[simp] theorem sliceElems_slice (t : Ty) (l : List Val) : sliceElems (Val.slice t l) = l := rfl

/-- The registry key component of `Map`: the conditional pointer unwrap is
`stripPtr`. -/
theorem key_if_eq_stripPtr (t : Ty) : (if t.isPtr = true then t.stripPtr else t) = t.stripPtr := by
  cases t <;> simp [Ty.isPtr, Ty.stripPtr]

theorem stripPtr_ne_ptr_self (t : Ty) : t.stripPtr ≠ Ty.ptr t := by
  cases t with
  | base s => exact fun h => Ty.noConfusion h
  | ptr u =>
    intro h
    exact Ty.ne_ptr_ptr_self u (by simpa [Ty.stripPtr] using h)
  | slice u => exact fun h => Ty.noConfusion h

theorem stripPtr_eq_self_of_not_ptr {t : Ty} (h : t.isPtr = false) : t.stripPtr = t := by
  cases t <;> simp_all [Ty.isPtr, Ty.stripPtr]

theorem ptr_stripPtr_of_isPtr {t : Ty} (h : t.isPtr = true) : Ty.ptr t.stripPtr = t := by
  cases t <;> simp_all [Ty.isPtr, Ty.stripPtr]

theorem handlePointerConversion_no_err (D : Ty) (r : Val) (b : Bool) (v : Val)
    (err : Option Err) (h : handlePointerConversion D r b = some (v, err)) : err = none := by
  unfold handlePointerConversion at h
  split_ifs at h <;> simp_all

theorem mapWithReflection_no_err (D : Ty) (e : Entry) (src : Val) (b1 b2 : Bool)
    (v : Val) (err : Option Err) (h : mapWithReflection D e src b1 b2 = some (v, err)) :
    err = none := by
  simp only [mapWithReflection] at h
  split at h
  · split at h
    · simp_all
    · split_ifs at h <;> simp_all
    · simp_all
  · split_ifs at h <;> simp_all

/-- The scalar path returns no error, or `ErrNoMapping`; never the slices
error. -/
theorem map_err_cases (D : Ty) (m : Mapper) (src : Val) (v : Val) (err : Option Err)
    (h : Map D m src = some (v, err)) : err = none ∨ err = some Err.noMapping := by
  simp only [Map] at h
  split at h
  · simp at h
    right
    exact h.2.symm
  · split at h
    · simp at h
      left
      exact h.2.symm
    · split at h
      · simp at h
      · rename_i heq
        left
        exact handlePointerConversion_no_err _ _ _ _ _ h
      · left
        exact mapWithReflection_no_err _ _ _ _ _ _ _ h

/-! ## Scalar dispatch traces for a stored value-to-value function

With a function stored under key (S, D) whose declared types are S and D,
the caller's four shape combinations resolve as follows: the exact
value-to-value call takes the fast path; the other three fall through the
type switch (their function types differ from the stored one) into the
reflection fallback. -/

theorem map_val_val (S D : Ty) (m : Mapper) (f : Val → Val) (v : Val)
    (hS : S.isPtr = false) (hD : D.isPtr = false)
    (hfind : findEntry m.registry (S, D) = some ⟨S, D, f⟩)
    (hv : dynTy v = S) :
    Map D m v = some (f v, none) := by
  have hnil : isNilPtr v = false := by
    cases v with
    | base s n => rfl
    | ptr t o =>
      simp only [dynTy_ptr] at hv
      subst hv
      simp at hS
    | slice t l => rfl
  simp [Map, fastFunctionCall, handlePointerConversion, dynTy_zeroVal,
    stripPtr_eq_self_of_not_ptr hS, stripPtr_eq_self_of_not_ptr hD, hS, hD, hfind, hv, hnil]

theorem map_ptr_ptr (S D : Ty) (m : Mapper) (f : Val → Val) (v : Val)
    (hfind : findEntry m.registry (S, D) = some ⟨S, D, f⟩)
    (hv : dynTy v = S) (hfv : dynTy (f v) = D) :
    Map (Ty.ptr D) m (Val.ptr S (some v)) = some (Val.ptr D (some (f v)), none) := by
  have h1 := Ty.ne_ptr_self S
  have h2 := Ty.ne_ptr_ptr_self S
  simp [Map, fastFunctionCall, mapWithReflection, dynTy_zeroVal, hfind, hv, hfv, h1, h2]

theorem map_val_ptr (S D : Ty) (m : Mapper) (f : Val → Val) (v : Val)
    (hS : S.isPtr = false)
    (hfind : findEntry m.registry (S, D) = some ⟨S, D, f⟩)
    (hv : dynTy v = S) (hfv : dynTy (f v) = D) :
    Map (Ty.ptr D) m v = some (Val.ptr D (some (f v)), none) := by
  have h1 := Ty.ne_ptr_self S
  have h2 := Ty.ne_ptr_self D
  have h3 := Ty.ne_ptr_ptr_self D
  have hnil : isNilPtr v = false := by
    cases v with
    | base s n => rfl
    | ptr t o =>
      simp only [dynTy_ptr] at hv
      subst hv
      simp at hS
    | slice t l => rfl
  simp [Map, fastFunctionCall, mapWithReflection, dynTy_zeroVal,
    stripPtr_eq_self_of_not_ptr hS, hS, hfind, hv, hfv, hnil, h1, h2, h3]

theorem map_ptr_val (S D : Ty) (m : Mapper) (f : Val → Val) (v : Val)
    (hD : D.isPtr = false)
    (hfind : findEntry m.registry (S, D) = some ⟨S, D, f⟩)
    (hv : dynTy v = S) (hfv : dynTy (f v) = D) :
    Map D m (Val.ptr S (some v)) = some (f v, none) := by
  have h1 := Ty.ne_ptr_self S
  have h2 := Ty.ne_ptr_ptr_self S
  have h3 := Ty.ne_ptr_self D
  simp [Map, fastFunctionCall, mapWithReflection, dynTy_zeroVal,
    stripPtr_eq_self_of_not_ptr hD, hD, hfind, hv, hfv, h1, h2, h3]

theorem mem_removeKey {reg : List (TypePair × Entry)} {k : TypePair}
    {p : TypePair × Entry} (h : p ∈ removeKey k reg) : p ∈ reg := by
  induction reg with
  | nil => simpa [removeKey] using h
  | cons q rest ih =>
    obtain ⟨k', e'⟩ := q
    by_cases hk : k' = k
    · subst hk
      simp only [removeKey, if_pos rfl] at h
      exact List.mem_cons_of_mem _ (ih h)
    · simp only [removeKey, if_neg hk] at h
      rcases List.mem_cons.mp h with h | h
      · exact h ▸ List.mem_cons_self _ _
      · exact List.mem_cons_of_mem _ (ih h)

theorem mem_mapInsert {reg : List (TypePair × Entry)} {k : TypePair} {e : Entry}
    {p : TypePair × Entry} (h : p ∈ mapInsert k e reg) : p = (k, e) ∨ p ∈ reg := by
  rcases List.mem_cons.mp h with h | h
  · exact Or.inl h
  · exact Or.inr (mem_removeKey h)

theorem keysNonPtr_applyOp {op : RegOp} {m : Mapper} (hop : opTypesNonPtr op)
    (h : keysNonPtr m) : keysNonPtr (applyOp op m) := by
  cases op with
  | reg S D f =>
    intro p hp
    rcases mem_mapInsert hp with rfl | hp
    · exact ⟨hop.1, hop.2⟩
    · exact h p hp
  | regAuto S D f g =>
    intro p hp
    rcases mem_mapInsert hp with rfl | hp
    · exact ⟨hop.2, hop.1⟩
    · rcases mem_mapInsert hp with rfl | hp
      · exact ⟨hop.1, hop.2⟩
      · exact h p hp
  | rem S D =>
    intro p hp
    exact h p (mem_removeKey hp)

theorem keysNonPtr_applyOps (ops : List RegOp) (m : Mapper) (h : keysNonPtr m)
    (hops : ∀ op ∈ ops, opTypesNonPtr op) : keysNonPtr (applyOps ops m) := by
  induction ops generalizing m with
  | nil => simpa [applyOps] using h
  | cons op rest ih =>
    simp only [applyOps]
    exact ih (applyOp op m)
      (keysNonPtr_applyOp (hops op (List.mem_cons_self _ _)) h)
      (fun o ho => hops o (List.mem_cons_of_mem _ ho))

/-- With an entry found under the stripped key, the fast path either fires
its first case (exact value-to-value match, which forces a non-pointer
destination) or reports no match; the second and third cases are
unreachable because they would require a type equal to a pointer to
itself. -/
theorem fastFunctionCall_found (S D : Ty) (e : Entry) (src : Val)
    (hin : S.stripPtr = e.inTy) (hout : D.stripPtr = e.outTy) :
    (fastFunctionCall S D e src = some (e.fn src, true) ∧ D.isPtr = false)
      ∨ fastFunctionCall S D e src = some (zeroVal D, false) := by
  by_cases h1 : e.inTy = S ∧ e.outTy = D
  · left
    have hD : D.isPtr = false := by
      cases D with
      | ptr w => exact absurd (hout.trans h1.2) (Ty.ne_ptr_self w)
      | base s => rfl
      | slice t => rfl
    exact ⟨by simp [fastFunctionCall, h1], hD⟩
  · right
    have h2 : ¬(e.inTy = Ty.ptr S ∧ e.outTy = D) := by
      rintro ⟨hh, -⟩
      exact stripPtr_ne_ptr_self S (hin.trans hh)
    have h3 : ¬(e.inTy = S ∧ e.outTy = Ty.ptr D) := by
      rintro ⟨-, hh⟩
      exact stripPtr_ne_ptr_self D (hout.trans hh)
    simp [fastFunctionCall, h1, h2, h3]

/-- The reflection fallback is total when the entry matches the stripped
key: the prepared parameter's type equals the declared input type, and the
output adaptation's assertions hold by the key match. -/
theorem mapWithReflection_total (D : Ty) (e : Entry) (src : Val)
    (hin : (dynTy src).stripPtr = e.inTy) (hout : D.stripPtr = e.outTy)
    (hfn : ∀ w, dynTy w = e.inTy → dynTy (e.fn w) = e.outTy) (hwv : WFVal src) :
    ∃ v, mapWithReflection D e src (dynTy src).isPtr D.isPtr = some (v, none) := by
  have hDadjP : ∀ r, dynTy r = e.outTy → D.isPtr = true → Ty.ptr (dynTy r) = D := by
    intro r hr hD
    rw [hr, ← hout]
    exact ptr_stripPtr_of_isPtr hD
  have hDadjV : ∀ r, dynTy r = e.outTy → D.isPtr = false → dynTy r = D := by
    intro r hr hD
    rw [hr, ← hout]
    exact stripPtr_eq_self_of_not_ptr hD
  cases src with
  | base s n =>
    have harg : Ty.base s = e.inTy := by simpa [Ty.stripPtr] using hin
    have hres := hfn (Val.base s n) harg
    by_cases hD : D.isPtr = true
    · exact ⟨Val.ptr (dynTy (e.fn (Val.base s n))) (some (e.fn (Val.base s n))),
        by simp [mapWithReflection, harg.symm, hD, hDadjP _ hres hD]⟩
    · have hD' : D.isPtr = false := by simpa using hD
      exact ⟨e.fn (Val.base s n),
        by simp [mapWithReflection, harg.symm, hD', hDadjV _ hres hD']⟩
  | slice t l =>
    have harg : Ty.slice t = e.inTy := by simpa [Ty.stripPtr] using hin
    have hres := hfn (Val.slice t l) harg
    by_cases hD : D.isPtr = true
    · exact ⟨Val.ptr (dynTy (e.fn (Val.slice t l))) (some (e.fn (Val.slice t l))),
        by simp [mapWithReflection, harg.symm, hD, hDadjP _ hres hD]⟩
    · have hD' : D.isPtr = false := by simpa using hD
      exact ⟨e.fn (Val.slice t l),
        by simp [mapWithReflection, harg.symm, hD', hDadjV _ hres hD']⟩
  | ptr t o =>
    cases o with
    | none => exact ⟨zeroVal D, by simp [mapWithReflection]⟩
    | some u =>
      simp only [WFVal] at hwv
      obtain ⟨hu, -⟩ := hwv
      have harg : dynTy u = e.inTy := by
        rw [hu]
        simpa [Ty.stripPtr] using hin
      have hres := hfn u harg
      by_cases hD : D.isPtr = true
      · exact ⟨Val.ptr (dynTy (e.fn u)) (some (e.fn u)),
          by simp [mapWithReflection, harg, hD, hDadjP _ hres hD]⟩
      · have hD' : D.isPtr = false := by simpa using hD
        exact ⟨e.fn u,
          by simp [mapWithReflection, harg, hD', hDadjV _ hres hD']⟩

/-- The fast slice path never succeeds when the source elements are
pointers: both concrete cases of the type switch assert the source to a
slice of a base type. -/
theorem fastSliceMapping_ptr_src (T dstType : Ty) (e : Entry) (src : Val) :
    fastSliceMapping (Ty.slice (Ty.ptr T)) dstType e src = none := by
  unfold fastSliceMapping
  split_ifs <;> simp_all

theorem mapElems_eq_map {g : Val → Option Val} {h : Val → Val} {l : List Val}
    (hg : ∀ x ∈ l, g x = some (h x)) : mapElems g l = some (l.map h) := by
  induction l with
  | nil => rfl
  | cons x xs ih =>
    simp only [mapElems, hg x (List.mem_cons_self _ _), List.map_cons,
      ih (fun y hy => hg y (List.mem_cons_of_mem _ hy))]

/-- One loop index of the slice reflection path, for a pointer source
element and an entry with non-pointer declared types: a nil element stores
the destination element's zero value without calling the function, a
non-nil element calls the function on the pointee and wraps the result
when the destination elements are pointers. -/
theorem mapAndSet_ptr_spec (T dE : Ty) (f : Val → Val) (x : Val)
    (hT : T.isPtr = false) (hdE : dE.stripPtr.isPtr = false)
    (hf : ∀ w, dynTy w = T → dynTy (f w) = dE.stripPtr)
    (hx : dynTy x = Ty.ptr T) (hwx : WFVal x) :
    mapAndSet ⟨T, dE.stripPtr, f⟩ true dE.isPtr dE x = some (sliceElemSpec dE f x) := by
  obtain ⟨o, rfl⟩ : ∃ o, x = Val.ptr T o := by
    cases x with
    | base s n => simp at hx
    | ptr t o => exact ⟨o, by simp_all⟩
    | slice t lx => simp at hx
  cases o with
  | none =>
    simp [mapAndSet, mapSliceElement, setElem, sliceElemSpec, dynTy_zeroVal]
  | some u =>
    simp only [WFVal] at hwx
    obtain ⟨hu, -⟩ := hwx
    have hargTy : dynTy u = T := hu
    have hres := hf u hargTy
    by_cases hD : dE.isPtr = true
    · simp [mapAndSet, mapSliceElement, setElem, sliceElemSpec, hT, hdE, hD,
        hargTy, hres, ptr_stripPtr_of_isPtr hD]
    · have hD' : dE.isPtr = false := by simpa using hD
      have hstrip : dE.stripPtr = dE := stripPtr_eq_self_of_not_ptr hD'
      simp [mapAndSet, mapSliceElement, setElem, sliceElemSpec, hT, hdE, hD',
        hargTy, hres, hstrip]

/-! ## The registry well-formedness invariant is established by the API

Every entry ever present comes from `Register` or `RegisterAutoMap`; both
store the entry under the key equal to its declared types, and Go's static
typing of the registered `func(S) D` supplies the output-type guarantee
(the hypothesis `hfn`). -/

theorem wfRegistry_New : WFRegistry New := by
  intro p hp
  simp [New] at hp

theorem wfRegistry_Register {m : Mapper} {S D : Ty} {f : Val → Val}
    (hfn : ∀ v, dynTy v = S → dynTy (f v) = D) (h : WFRegistry m) :
    WFRegistry (Register S D f m) := by
  intro p hp
  rcases mem_mapInsert hp with rfl | hp
  · exact ⟨rfl, rfl, hfn⟩
  · exact h p hp

theorem wfRegistry_RegisterAutoMap {m : Mapper} {S D : Ty} {fSD fDS : Val → Val}
    (hSD : ∀ v, dynTy v = S → dynTy (fSD v) = D)
    (hDS : ∀ v, dynTy v = D → dynTy (fDS v) = S) (h : WFRegistry m) :
    WFRegistry (RegisterAutoMap S D fSD fDS m) := by
  intro p hp
  rcases mem_mapInsert hp with rfl | hp
  · exact ⟨rfl, rfl, hDS⟩
  · rcases mem_mapInsert hp with rfl | hp
    · exact ⟨rfl, rfl, hSD⟩
    · exact h p hp

theorem wfRegistry_Remove {m : Mapper} {S D : Ty} (h : WFRegistry m) :
    WFRegistry (Remove S D m) :=
  fun p hp => h p (mem_removeKey hp)

/-! ## Claim theorems -/

/-- Claim C1: with an entry registered under the dereferenced key for
(S, D), `Map` called on the nil pointer of S returns D's zero value and no
error.  The conclusion holds for every stored entry `e`, whatever its
function does, so the stored conversion function is not invoked. -/
theorem C1_map_nil_pointer_short_circuit (T D : Ty) (m : Mapper) (e : Entry)
    (hfind : findEntry m.registry (T, D.stripPtr) = some e) :
    Map D m (Val.ptr T none) = some (zeroVal D, none) := by
  simp [Map, dynTy_zeroVal, key_if_eq_stripPtr, hfind]

theorem C1_witness :
    Map (Ty.base "int") (Register (Ty.base "int") (Ty.base "int") (fun v => v) New)
        (Val.ptr (Ty.base "int") none)
      = some (zeroVal (Ty.base "int"), none) :=
  C1_map_nil_pointer_short_circuit (Ty.base "int") (Ty.base "int")
    (Register (Ty.base "int") (Ty.base "int") (fun v => v) New)
    ⟨Ty.base "int", Ty.base "int", fun v => v⟩ rfl

/-- Claim C5: when no entry exists under the dereferenced key, `Map`
returns D's zero value together with `ErrNoMapping`; and the scalar path's
only failure mode is `ErrNoMapping` (in particular it never returns the
slices error).  The registry is read, never written, by `Map` (the model
of `Map` takes the mapper as a pure argument and returns no updated
mapper, mirroring the absence of any map write in the source). -/
theorem C5_unregistered_lookup (D : Ty) (m : Mapper) (src : Val) :
    (findEntry m.registry ((dynTy src).stripPtr, D.stripPtr) = none →
        Map D m src = some (zeroVal D, some Err.noMapping))
      ∧ (∀ v err, Map D m src = some (v, err) → err = none ∨ err = some Err.noMapping) := by
  constructor
  · intro hfind
    simp [Map, dynTy_zeroVal, key_if_eq_stripPtr, hfind]
  · intro v err h
    exact map_err_cases D m src v err h

theorem C5_witness :
    Map (Ty.base "int") New (Val.base "string" 5)
      = some (zeroVal (Ty.base "int"), some Err.noMapping) :=
  (C5_unregistered_lookup (Ty.base "int") New (Val.base "string" 5)).1 rfl

/-- Claim C7: when the source or destination static type is not a slice
type, `MapSlice` returns D's zero value and the "both source and
destination must be slices" error; the conclusion holds for every registry
`m` (the check precedes the lookup, so no entry is consulted) and the
scalar path never produces this error. -/
theorem C7_mapslice_shape_error (D : Ty) (m : Mapper) (src : Val)
    (h : ¬((dynTy src).isSlice = true ∧ D.isSlice = true)) :
    MapSlice D m src = some (zeroVal D, some Err.srcAndDestMustBeSlices)
      ∧ ∀ (E : Ty) (m' : Mapper) (src' v : Val) (err : Option Err),
          Map E m' src' = some (v, err) → err ≠ some Err.srcAndDestMustBeSlices := by
  constructor
  · simp [MapSlice, dynTy_zeroVal, h]
  · intro E m' src' v err hmap
    rcases map_err_cases E m' src' v err hmap with h1 | h1 <;> simp [h1]

theorem C7_witness :
    MapSlice (Ty.slice (Ty.base "int")) New (Val.base "int" 3)
      = some (zeroVal (Ty.slice (Ty.base "int")), some Err.srcAndDestMustBeSlices) :=
  (C7_mapslice_shape_error (Ty.slice (Ty.base "int")) New (Val.base "int" 3)
    (by decide)).1

/-- Claim C8: registering fn1 and then fn2 for the same (S, D) leaves the
registry in exactly the state of registering only fn2: the second
registration overwrites the first, so every subsequent operation behaves
as if only fn2 had ever been registered and fn1 is unobservable. -/
theorem C8_register_overwrite (S D : Ty) (f1 f2 : Val → Val) (m : Mapper) :
    Register S D f2 (Register S D f1 m) = Register S D f2 m := by
  simp [Register, mapInsert, removeKey, removeKey_idem]

/-- Claim C10: `Has` and `Remove` key on S and D exactly as supplied: for
an entry registered under value types (S, D), `Has` at (\*S, \*D) is
false and `Remove` at (\*S, \*D) changes nothing, while `Map` at
(\*S, \*D) finds and uses that same entry. -/
theorem C10_has_remove_exact_types (S D : Ty) (f : Val → Val) (v : Val)
    (hS : S.isPtr = false) (hD : D.isPtr = false)
    (hv : dynTy v = S) (hfv : dynTy (f v) = D) :
    Has (Ty.ptr S) (Ty.ptr D) (Register S D f New) = false
      ∧ Remove (Ty.ptr S) (Ty.ptr D) (Register S D f New) = Register S D f New
      ∧ Has S D (Register S D f New) = true
      ∧ Map (Ty.ptr D) (Register S D f New) (Val.ptr S (some v))
          = some (Val.ptr D (some (f v)), none) := by
  have hne : ¬(((S, D) : TypePair) = (Ty.ptr S, Ty.ptr D)) := by
    intro h
    exact Ty.ne_ptr_self S (congrArg Prod.fst h)
  refine ⟨?_, ?_, ?_, ?_⟩
  · simp [Has, Register, New, mapInsert, removeKey, findEntry, hne]
  · simp [Remove, Register, New, mapInsert, removeKey, hne]
  · simp [Has, Register, New, mapInsert, removeKey, findEntry]
  · exact map_ptr_ptr S D (Register S D f New) f v
      (by simp [Register, New, mapInsert, removeKey, findEntry]) hv hfv

theorem C10_witness :
    Has (Ty.ptr (Ty.base "person")) (Ty.ptr (Ty.base "dto"))
        (Register (Ty.base "person") (Ty.base "dto")
          (fun v => Val.base "dto" 7) New) = false
      ∧ Remove (Ty.ptr (Ty.base "person")) (Ty.ptr (Ty.base "dto"))
            (Register (Ty.base "person") (Ty.base "dto")
              (fun v => Val.base "dto" 7) New)
          = Register (Ty.base "person") (Ty.base "dto") (fun v => Val.base "dto" 7) New
      ∧ Has (Ty.base "person") (Ty.base "dto")
            (Register (Ty.base "person") (Ty.base "dto")
              (fun v => Val.base "dto" 7) New) = true
      ∧ Map (Ty.ptr (Ty.base "dto"))
            (Register (Ty.base "person") (Ty.base "dto")
              (fun v => Val.base "dto" 7) New)
            (Val.ptr (Ty.base "person") (some (Val.base "person" 3)))
          = some (Val.ptr (Ty.base "dto") (some (Val.base "dto" 7)), none) :=
  C10_has_remove_exact_types (Ty.base "person") (Ty.base "dto")
    (fun v => Val.base "dto" 7) (Val.base "person" 3) rfl rfl rfl rfl

/-- Claim C2 counterexample: `Register` performs no pointer stripping on
the supplied type parameters: registering a function declared on the
pointer type \*t puts a key with a pointer-typed source component into
the registry. -/
theorem C2_counterexample :
    ((Register (Ty.ptr (Ty.base "t")) (Ty.base "u") (fun v => v) New).registry.map
        Prod.fst)
      = [(Ty.ptr (Ty.base "t"), Ty.base "u")]
      ∧ (Ty.ptr (Ty.base "t")).isPtr = true :=
  ⟨rfl, rfl⟩

/-- Claim C2 (amended): `Register` inserts under the key built from S and
D exactly as supplied, without stripping pointer layers; consequently,
after any sequence of register/remove operations whose registrations all
supply non-pointer type parameters (the canonical usage the spec
describes), no key in the registry has a pointer-typed component. -/
theorem C2_registry_key_invariant (ops : List RegOp)
    (hops : ∀ op ∈ ops, opTypesNonPtr op) :
    keysNonPtr (applyOps ops New)
      ∧ ∀ (S D : Ty) (f : Val → Val) (m : Mapper),
          findEntry (Register S D f m).registry (S, D) = some ⟨S, D, f⟩ := by
  constructor
  · refine keysNonPtr_applyOps ops New ?_ hops
    intro p hp
    simp [New] at hp
  · intro S D f m
    exact findEntry_mapInsert_self m.registry (S, D) ⟨S, D, f⟩

theorem C2_witness :
    keysNonPtr (applyOps
        [RegOp.reg (Ty.base "t") (Ty.base "u") (fun v => v),
         RegOp.rem (Ty.base "t") (Ty.base "u")] New)
      ∧ ∀ (S D : Ty) (f : Val → Val) (m : Mapper),
          findEntry (Register S D f m).registry (S, D) = some ⟨S, D, f⟩ :=
  C2_registry_key_invariant
    [RegOp.reg (Ty.base "t") (Ty.base "u") (fun v => v),
     RegOp.rem (Ty.base "t") (Ty.base "u")]
    (by
      intro op hop
      rcases List.mem_cons.mp hop with rfl | hop
      · exact ⟨rfl, rfl⟩
      · rcases List.mem_cons.mp hop with rfl | hop
        · trivial
        · simp at hop)

/-- Claim C9: `List` yields exactly one label per registry entry, each
formatted as source-dash-destination, and every call allocates a fresh
independent array: the references returned by two calls differ, and
mutating either array leaves the other's content unchanged (the registry
is no part of the mutable allocation state at all, so mutating a returned
array cannot reach it; a later `List` call still returns the same
labels). -/
theorem C9_list_labels_fresh (m : Mapper) (st : AllocState) (i j : Nat)
    (s1 s2 : String) :
    listStrings m = m.registry.map (fun p => p.1.1.str ++ "-" ++ p.1.2.str)
      ∧ (listStrings m).length = m.registry.length
      ∧ (listAlloc m st).2 ≠ (listAlloc m (listAlloc m st).1).2
      ∧ (writeArr (listAlloc m (listAlloc m st).1).1 (listAlloc m st).2 i s1).mem
            (listAlloc m (listAlloc m st).1).2 = listStrings m
      ∧ (writeArr (listAlloc m (listAlloc m st).1).1
            (listAlloc m (listAlloc m st).1).2 j s2).mem (listAlloc m st).2
          = listStrings m
      ∧ (listAlloc m (writeArr (listAlloc m (listAlloc m st).1).1
            (listAlloc m st).2 i s1)).1.mem
            (listAlloc m (writeArr (listAlloc m (listAlloc m st).1).1
              (listAlloc m st).2 i s1)).2
          = listStrings m := by
  refine ⟨rfl, by simp [listStrings], ?_, ?_, ?_, ?_⟩
  · simp [listAlloc]
  · simp [listAlloc, writeArr]
  · simp [listAlloc, writeArr]
  · simp [listAlloc, writeArr]

/-- Claim C4: once `Map` finds a matching registry entry (stored by
`Register` or `RegisterAutoMap`, so the entry's declared types equal the
key and its function returns its declared output type), every subsequent
step — the nil short-circuit, the fast-path type switch, the pointer
adaptations and the reflection fallback — completes without panic and
without error: `Map` returns `some` result with `none` error (`none` of
the model marks a Go panic, so `some` is exactly panic-freedom). -/
theorem C4_found_entry_totality (D : Ty) (m : Mapper) (src : Val) (e : Entry)
    (hwf : WFRegistry m) (hwv : WFVal src)
    (hfind : findEntry m.registry ((dynTy src).stripPtr, D.stripPtr) = some e) :
    ∃ v, Map D m src = some (v, none) := by
  obtain ⟨hin, hout, hfn⟩ := hwf _ (findEntry_mem hfind)
  by_cases hnil : (dynTy src).isPtr = true ∧ isNilPtr src = true
  · exact ⟨zeroVal D, by simp [Map, dynTy_zeroVal, key_if_eq_stripPtr, hfind, hnil]⟩
  · rcases fastFunctionCall_found (dynTy src) D e src hin hout with ⟨hfc, hD⟩ | hfc
    · have hfind2 : findEntry m.registry ((dynTy src).stripPtr, D) = some e := by
        rwa [stripPtr_eq_self_of_not_ptr hD] at hfind
      exact ⟨e.fn src, by
        simp [Map, dynTy_zeroVal, key_if_eq_stripPtr, stripPtr_eq_self_of_not_ptr hD,
          hfind2, hnil, hfc, handlePointerConversion, hD]⟩
    · obtain ⟨v, hv⟩ := mapWithReflection_total D e src hin hout hfn hwv
      exact ⟨v, by simp [Map, dynTy_zeroVal, key_if_eq_stripPtr, hfind, hnil, hfc, hv]⟩

theorem C4_witness :
    ∃ v, Map (Ty.base "int")
        (Register (Ty.base "int") (Ty.base "int") (fun _ => Val.base "int" 7) New)
        (Val.base "int" 5) = some (v, none) :=
  C4_found_entry_totality (Ty.base "int")
    (Register (Ty.base "int") (Ty.base "int") (fun _ => Val.base "int" 7) New)
    (Val.base "int" 5)
    ⟨Ty.base "int", Ty.base "int", fun _ => Val.base "int" 7⟩
    (by
      intro p hp
      simp [Register, New, mapInsert, removeKey] at hp
      subst hp
      exact ⟨rfl, rfl, fun v hv => rfl⟩)
    (by simp [WFVal]) rfl

/-- Claim C3: for a function f registered for value types S → D and a
non-nil source value, all four caller shape combinations succeed with no
error and produce the same underlying result f(s), differing only in the
pointer wrapping of input and output. -/
theorem C3_shape_symmetry (S D : Ty) (m : Mapper) (f : Val → Val) (v : Val)
    (hS : S.isPtr = false) (hD : D.isPtr = false)
    (hfind : findEntry m.registry (S, D) = some ⟨S, D, f⟩)
    (hv : dynTy v = S) (hfv : dynTy (f v) = D) :
    Map D m v = some (f v, none)
      ∧ Map (Ty.ptr D) m (Val.ptr S (some v)) = some (Val.ptr D (some (f v)), none)
      ∧ Map (Ty.ptr D) m v = some (Val.ptr D (some (f v)), none)
      ∧ Map D m (Val.ptr S (some v)) = some (f v, none) :=
  ⟨map_val_val S D m f v hS hD hfind hv,
   map_ptr_ptr S D m f v hfind hv hfv,
   map_val_ptr S D m f v hS hfind hv hfv,
   map_ptr_val S D m f v hD hfind hv hfv⟩

theorem C3_witness :
    Map (Ty.base "dto")
        (Register (Ty.base "person") (Ty.base "dto")
          (fun x => match x with | Val.base _ n => Val.base "dto" n | _ => Val.base "dto" 0) New)
        (Val.base "person" 30)
      = some (Val.base "dto" 30, none)
      ∧ Map (Ty.ptr (Ty.base "dto"))
          (Register (Ty.base "person") (Ty.base "dto")
            (fun x => match x with | Val.base _ n => Val.base "dto" n | _ => Val.base "dto" 0) New)
          (Val.ptr (Ty.base "person") (some (Val.base "person" 30)))
        = some (Val.ptr (Ty.base "dto") (some (Val.base "dto" 30)), none)
      ∧ Map (Ty.ptr (Ty.base "dto"))
          (Register (Ty.base "person") (Ty.base "dto")
            (fun x => match x with | Val.base _ n => Val.base "dto" n | _ => Val.base "dto" 0) New)
          (Val.base "person" 30)
        = some (Val.ptr (Ty.base "dto") (some (Val.base "dto" 30)), none)
      ∧ Map (Ty.base "dto")
          (Register (Ty.base "person") (Ty.base "dto")
            (fun x => match x with | Val.base _ n => Val.base "dto" n | _ => Val.base "dto" 0) New)
          (Val.ptr (Ty.base "person") (some (Val.base "person" 30)))
        = some (Val.base "dto" 30, none) :=
  C3_shape_symmetry (Ty.base "person") (Ty.base "dto")
    (Register (Ty.base "person") (Ty.base "dto")
      (fun x => match x with | Val.base _ n => Val.base "dto" n | _ => Val.base "dto" 0) New)
    (fun x => match x with | Val.base _ n => Val.base "dto" n | _ => Val.base "dto" 0)
    (Val.base "person" 30) rfl rfl rfl rfl rfl

/-- Claim C6 counterexample: the claim fails as stated.  Register a
function declared t → \*w (a pointer-returning function, a legitimate
`Register` call); its entry is found for the slice call \[\]\*t →
\[\]\*\*w via the stripped element key (t, \*w).  On a source slice
mixing a nil and a non-nil pointer element, `MapSlice` panics at the
non-nil index (`reflect.Value.Set` receives a \*w value for a \*\*w
slot, because the result adaptation wraps only when the function's
declared return kind is not a pointer) instead of returning a
fully-populated slice with no error: the model yields `none` (panic). -/
theorem C6_counterexample :
    MapSlice (Ty.slice (Ty.ptr (Ty.ptr (Ty.base "w"))))
        (Register (Ty.base "t") (Ty.ptr (Ty.base "w"))
          (fun _ => Val.ptr (Ty.base "w") (some (Val.base "w" 0))) New)
        (Val.slice (Ty.ptr (Ty.base "t"))
          [Val.ptr (Ty.base "t") none,
           Val.ptr (Ty.base "t") (some (Val.base "t" 1))])
      = none := rfl

/-- Claim C6 (amended): restricted to matched entries whose declared input
and output types are non-pointer (equivalently: slice element types with
at most one pointer layer, the usage the spec describes), the claim holds:
for a source slice of pointer elements mixing nil and non-nil, every nil
element maps to the destination element type's zero value (nil when the
destination elements are pointers) without invoking the stored function
(the conclusion at nil positions is independent of f), every non-nil
element is converted by invoking the stored function on its pointee, and
the output slice preserves length and index order, with no error. -/
theorem C6_slice_nil_propagation (T dE : Ty) (m : Mapper) (f : Val → Val)
    (l : List Val)
    (hT : T.isPtr = false) (hdE : dE.stripPtr.isPtr = false)
    (hfind : findEntry m.registry (T, dE.stripPtr) = some ⟨T, dE.stripPtr, f⟩)
    (hf : ∀ w, dynTy w = T → dynTy (f w) = dE.stripPtr)
    (hl : ∀ x ∈ l, dynTy x = Ty.ptr T ∧ WFVal x) :
    MapSlice (Ty.slice dE) m (Val.slice (Ty.ptr T) l)
      = some (Val.slice dE (l.map (sliceElemSpec dE f)), none) := by
  have hfast := fastSliceMapping_ptr_src T (Ty.slice dE)
    ⟨T, dE.stripPtr, f⟩ (Val.slice (Ty.ptr T) l)
  have hmap : mapElems (mapAndSet ⟨T, dE.stripPtr, f⟩ true dE.isPtr dE) l
      = some (l.map (sliceElemSpec dE f)) :=
    mapElems_eq_map (fun x hx =>
      mapAndSet_ptr_spec T dE f x hT hdE hf (hl x hx).1 (hl x hx).2)
  simp [MapSlice, mapSliceWithReflection, dynTy_zeroVal, key_if_eq_stripPtr,
    hfind, hfast, hmap]

theorem C6_witness :
    MapSlice (Ty.slice (Ty.ptr (Ty.base "dto")))
        (Register (Ty.base "t") (Ty.base "dto") (fun _ => Val.base "dto" 9) New)
        (Val.slice (Ty.ptr (Ty.base "t"))
          [Val.ptr (Ty.base "t") none,
           Val.ptr (Ty.base "t") (some (Val.base "t" 2))])
      = some (Val.slice (Ty.ptr (Ty.base "dto"))
          ([Val.ptr (Ty.base "t") none,
            Val.ptr (Ty.base "t") (some (Val.base "t" 2))].map
            (sliceElemSpec (Ty.ptr (Ty.base "dto")) (fun _ => Val.base "dto" 9))),
          none) :=
  C6_slice_nil_propagation (Ty.base "t") (Ty.ptr (Ty.base "dto"))
    (Register (Ty.base "t") (Ty.base "dto") (fun _ => Val.base "dto" 9) New)
    (fun _ => Val.base "dto" 9)
    [Val.ptr (Ty.base "t") none, Val.ptr (Ty.base "t") (some (Val.base "t" 2))]
    rfl rfl rfl (fun w hw => rfl)
    (by
      intro x hx
      rcases List.mem_cons.mp hx with rfl | hx
      · exact ⟨rfl, by simp [WFVal]⟩
      · rcases List.mem_cons.mp hx with rfl | hx
        · exact ⟨rfl, by simp [WFVal]⟩
        · simp at hx)

end GoMapper
